import Mathlib

/-!
# Devblog: slug generation, pagination, the auth gate and the admin routes

A shallow embedding of `src/routes/admin.js`, `src/routes/index.js` and
`src/middlewares/auth.js`.

* JavaScript strings are lists of characters; the regular expressions of the slug
  pipeline carry no `u` flag and only ever test single characters, so a character
  outside the Basic Multilingual Plane (two UTF-16 units, neither of them in
  `\w`, `\s` or `-`) is dropped exactly as its two surrogates are.
* The stores are lists of records; a handler is a function from the request and the
  stores to a response, the new stores, the list of store calls it made and its
  effect on the `user` cookie.
-/

namespace Devblog

/-! ## Character classes of the regular expressions -/

/-- ASCII `A`-`Z`. -/
def isUpper (c : Char) : Bool := 65 ≤ c.toNat && c.toNat ≤ 90

/-- ASCII `a`-`z`, `0`-`9` and `_`: the members of `\w` that are not upper case. -/
def isLowerWord (c : Char) : Bool :=
  (97 ≤ c.toNat && c.toNat ≤ 122) || (48 ≤ c.toNat && c.toNat ≤ 57) || c.toNat == 95

/-- The class `\w` (no `u`, no `i` flag): `[A-Za-z0-9_]`. -/
def isWord (c : Char) : Bool := isUpper c || isLowerWord c

/-- The class `\s`: ECMAScript WhiteSpace and LineTerminator code points. It is also
the set `String.prototype.trim` strips. -/
def isSpace (c : Char) : Bool :=
  let n := c.toNat
  (9 ≤ n && n ≤ 13) || n == 32 || n == 0xA0 || n == 0x1680 || (0x2000 ≤ n && n ≤ 0x200A)
    || n == 0x2028 || n == 0x2029 || n == 0x202F || n == 0x205F || n == 0x3000 || n == 0xFEFF

/-- The literal `-`. -/
def isHyphen (c : Char) : Bool := c.toNat == 45

/-- Lower-casing of one character, `String.prototype.toLowerCase`.
`A`-`Z` go to `a`-`z`; U+0130 goes to `i` followed by U+0307 and U+212A (Kelvin sign)
to `k`, the only two non-ASCII code points whose lower case contains an ASCII
character. Every other non-ASCII cased letter is sent by JavaScript to non-ASCII
letters, which the next step of the slug pipeline (`/[^\w\s-]/g`) deletes like the
letter itself, and no case mapping produces or consumes white space; such letters
are left as they are here. -/
def lowerChar (c : Char) : List Char :=
  if isUpper c then [Char.ofNat (c.toNat + 32)]
  else if c.toNat = 0x130 then [Char.ofNat 0x69, Char.ofNat 0x307]
  else if c.toNat = 0x212A then [Char.ofNat 0x6B]
  else [c]

/-- `s.toLowerCase()`. -/
def toLowerCase (s : List Char) : List Char := s.flatMap lowerChar

/-- `s.replace(/X+/g, r)` for a one-character class `X` given by `p`: every maximal
run of characters of the class becomes the single character `r`. The flag says
whether the scan is inside a run whose replacement has already been written. -/
def replaceRuns (p : Char → Bool) (r : Char) : Bool → List Char → List Char
  | _, [] => []
  | inRun, c :: cs =>
    if p c then
      if inRun then replaceRuns p r true cs else r :: replaceRuns p r true cs
    else c :: replaceRuns p r false cs

/-- `s.trim()`: white space is removed from both ends. -/
def trim (s : List Char) : List Char :=
  ((s.dropWhile isSpace).reverse.dropWhile isSpace).reverse

/-- The slug of `POST /admin/add` (admin.js, lines 84-89):
lower-case the title, delete what `[^\w\s-]` matches, replace every match of `\s+` by a
hyphen, replace every match of `-+` by a hyphen, then `trim()`. -/
def slugChars (title : List Char) : List Char :=
  trim (replaceRuns isHyphen '-' false (replaceRuns isSpace '-' false
    ((toLowerCase title).filter (fun c => isWord c || isSpace c || isHyphen c))))

/-- The slug pipeline on strings. -/
def slugify (title : String) : String := String.mk (slugChars title.data)

/-- The characters `/[^\w\s-]/g` keeps. -/
def kept (c : Char) : Bool := isWord c || isSpace c || isHyphen c

/-- No hyphen is followed by a hyphen. -/
def noDoubleHyphen : List Char → Bool
  | a :: b :: rest => !(isHyphen a && isHyphen b) && noDoubleHyphen (b :: rest)
  | _ => true

/-- The list does not start with a hyphen. -/
def headNotHyphen : List Char → Bool
  | [] => true
  | c :: _ => !isHyphen c

/-- The characters a slug is made of. -/
def slugOK (c : Char) : Bool := isLowerWord c || isHyphen c

/-! ## Numbers read from the query string -/

/-- The Number values the handlers compute from `req.query.page`. Numbers are IEEE
doubles: `num i` is the integer `i`, used only for `|i| ≤ 2^53 - 1`, where every
integer is a double and an operation whose exact result is such an integer returns
it; `nan` is `NaN`; `untracked` stands for a value this development does not follow
(an integer beyond that range, where doubles round; a fraction, an exponent form, a
hex, octal or binary literal, an infinity). -/
inductive JSNum where
  | nan
  | num (i : Int)
  | untracked
  deriving DecidableEq, Repr

/-- The constant `Number.MAX_SAFE_INTEGER`, `2^53 - 1`. -/
def maxSafeInteger : Nat := 9007199254740991

/-- The Number of an integer: itself inside the safe range, not followed outside. -/
def JSNum.ofInt (i : Int) : JSNum :=
  if i.natAbs ≤ maxSafeInteger then .num i else .untracked

/-- The expression `a - k` for an integer `k`: `NaN` stays `NaN`. -/
def JSNum.sub (a : JSNum) (k : Int) : JSNum :=
  match a with
  | .nan => .nan
  | .num i => JSNum.ofInt (i - k)
  | .untracked => .untracked

/-- The expression `a * k` for an integer `k`: `NaN` stays `NaN`. -/
def JSNum.mul (a : JSNum) (k : Int) : JSNum :=
  match a with
  | .nan => .nan
  | .num i => JSNum.ofInt (i * k)
  | .untracked => .untracked

/-- ASCII `0`-`9`. -/
def isDigit (c : Char) : Bool := 48 ≤ c.toNat && c.toNat ≤ 57

/-- The value of a string of decimal digits. -/
def decVal (ds : List Char) : Nat := ds.foldl (fun acc c => acc * 10 + (c.toNat - 48)) 0

/-- A non-empty string of decimal digits. -/
def isDecimal (ds : List Char) : Bool := !ds.isEmpty && ds.all isDigit

/-- An optional sign followed by decimal digits, as an integer. -/
def signedDigits : List Char → Option Int
  | [] => none
  | c :: ds =>
    if c = '+' then (if isDecimal ds then some (decVal ds : Int) else none)
    else if c = '-' then (if isDecimal ds then some (-(decVal ds : Int)) else none)
    else if isDecimal (c :: ds) then some (decVal (c :: ds) : Int) else none

/-- ToNumber applied to a string (the coercion in `page - 1`): white space is trimmed,
the empty string is 0, a signed decimal integer in the safe range is its value. Every other numeric
literal contains a digit or is a signed `Infinity`, so a string without a digit and
without `I` is `NaN`; the remaining strings are not followed. -/
def stringToNumber (s : List Char) : JSNum :=
  let t := trim s
  if t.isEmpty then .num 0
  else match signedDigits t with
    | some i => JSNum.ofInt i
    | none => if t.any (fun c => isDigit c || c == 'I') then .untracked else .nan

/-- The string starts with `0x` or `0X`. -/
def startsWithHex : List Char → Bool
  | a :: b :: _ => a == '0' && (b == 'x' || b == 'X')
  | _ => false

/-- The digits of `parseInt` with radix 10: the longest prefix of decimal digits, `NaN`
when it is empty. A hexadecimal literal and a value outside the safe range are not
followed. -/
def parseDigits (neg : Bool) (body : List Char) : JSNum :=
  if startsWithHex body then .untracked
  else
    let ds := body.takeWhile isDigit
    if ds.isEmpty then .nan
    else JSNum.ofInt (if neg then -(decVal ds : Int) else (decVal ds : Int))

/-- The call `parseInt(s)` on a string: leading white space and one sign are skipped. -/
def parseIntStr (s : List Char) : JSNum :=
  match s.dropWhile isSpace with
  | [] => .nan
  | c :: r =>
    if c = '-' then parseDigits true r
    else if c = '+' then parseDigits false r
    else parseDigits false (c :: r)

/-- The value of `req.query.page || 1`: the query string, or the number literal. -/
inductive PageVal where
  | str (s : String)
  | lit (n : Int)
  deriving DecidableEq, Repr

/-- The expression `req.query.page || 1`: `undefined` and the empty string are falsy,
every other string is kept as it is. -/
def pageOf (q : Option String) : PageVal :=
  match q with
  | none => .lit 1
  | some s => if s = "" then .lit 1 else .str s

/-- ToNumber of the page value. -/
def PageVal.toNumber : PageVal → JSNum
  | .lit n => JSNum.ofInt n
  | .str s => stringToNumber s.data

/-- The expression `(page - 1) * limit`. -/
def skipOf (page : PageVal) (limit : Nat) : JSNum :=
  (page.toNumber.sub 1).mul (limit : Int)

/-- The expression `parseInt(page)`. -/
def currentPageOf : PageVal → JSNum
  | .lit n => JSNum.ofInt n
  | .str s => parseIntStr s.data

/-- The expression `Math.ceil(totalPosts / limit)` on natural numbers: the quotient of a
count in the safe range by 10 is a double strictly between the two neighbouring
integers when the division is not exact, so `Math.ceil` returns the integer ceiling. -/
def ceilDiv (total limit : Nat) : Nat := (total + limit - 1) / limit

/-! ## Stores -/

/-- Modelled from the spec: `models/Post.js` is not among the sources. The fields are
those of section 3 of the specification, which are also the ones the routes read and
write; `createdAt` is the sort key of the listings. -/
structure Post where
  id : String
  title : String
  subtitle : String
  content : String
  author : String
  slug : String
  image : String
  createdAt : Nat
  deriving DecidableEq, Repr

/-- Modelled from the spec: `models/User.js` is not among the sources. The fields are
those `create-user-cli.js` writes and `POST /admin/login` reads. -/
structure User where
  name : String
  email : String
  password : String
  deriving DecidableEq, Repr

/-- The post store and the credential store. -/
structure Db where
  posts : List Post
  users : List User
  deriving DecidableEq, Repr

/-- The query modifier `.sort({ createdAt: -1 })`. -/
def newestFirst (ps : List Post) : List Post :=
  ps.insertionSort (fun a b => b.createdAt ≤ a.createdAt)

/-- The query `.sort({ createdAt: -1 }).skip(skip).limit(limit).exec()` on the documents
`ps`. What the driver does with a skip that is not a non-negative integer is not part
of this repository: the result is `none` there. -/
def findPaged (ps : List Post) (skip : JSNum) (limit : Nat) : Option (List Post) :=
  match skip with
  | .num i => if 0 ≤ i then some (((newestFirst ps).drop i.toNat).take limit) else none
  | _ => none

/-- The update of `findByIdAndUpdate`: the first document with the id is replaced. -/
def updateFirst (id : String) (f : Post → Post) : List Post → List Post
  | [] => []
  | p :: ps => if p.id = id then f p :: ps else p :: updateFirst id f ps

/-- The calls a handler makes to the stores and to the upload storage. -/
inductive StoreOp where
  | countPosts
  | findPosts
  | findPost
  | savePost
  | deletePost
  | updatePost
  | findUser
  | storeUpload
  deriving DecidableEq, Repr

/-- What a response does to a cookie. -/
inductive CookieEffect where
  | unchanged
  | set (name value : String)
  | cleared (name : String)
  deriving DecidableEq, Repr

/-- The responses of the routes: a rendered view with its locals, a redirect, the 404
text, and `failed` for an error handed to `next`. -/
inductive Response where
  | renderList (view title : String) (posts : List Post) (totalPages : Nat) (currentPage : JSNum)
  | renderPost (view : String) (post : Post) (title : String)
  | renderAdd (view title : String)
  | renderEdit (view title : String) (post : Option Post)
  | renderLogin (view title : String) (error : Option String)
  | redirect (location : String)
  | notFound (body : String)
  | failed
  deriving DecidableEq, Repr

/-- The result of handling a request. -/
structure Outcome where
  response : Response
  db : Db
  ops : List StoreOp
  cookie : CookieEffect
  deriving DecidableEq, Repr

/-- What the handlers take from outside the repository: the digest
`CryptoJS.SHA256(_).toString()`, the identifier the store gives a new document, and the
clock. -/
structure Env where
  sha256 : String → String
  freshId : String
  now : Nat

/-- The part of a request the gate reads: `req.cookies.user`. -/
structure Request where
  cookieUser : Option String
  deriving DecidableEq, Repr

/-! ## src/middlewares/auth.js -/

/-- The middleware `authenticate`: a missing or empty cookie redirects and `next` is
not called; otherwise the handler runs with `req.user` set to the cookie. -/
def authenticate (req : Request) (db : Db) (next : String → Option Outcome) : Option Outcome :=
  match req.cookieUser with
  | none => some ⟨.redirect "/admin/login", db, [], .unchanged⟩
  | some user =>
    if user = "" then some ⟨.redirect "/admin/login", db, [], .unchanged⟩
    else next user

/-! ## src/routes/index.js -/

/-- The handler of `GET /`. -/
def indexGet (db : Db) (q : Option String) : Option Outcome :=
  let page := pageOf q
  let limit := 10
  let skip := skipOf page limit
  let totalPosts := db.posts.length
  let totalPages := ceilDiv totalPosts limit
  match findPaged db.posts skip limit with
  | none => none
  | some posts =>
    some ⟨.renderList "index" "Home - Devblog" posts totalPages (currentPageOf page), db,
      [.countPosts, .findPosts], .unchanged⟩

/-- The handler of `GET /post/:slug`. -/
def postGet (db : Db) (slug : String) : Outcome :=
  match db.posts.find? (fun p => p.slug = slug) with
  | none => ⟨.notFound "Post not found", db, [.findPost], .unchanged⟩
  | some post => ⟨.renderPost "post" post post.title, db, [.findPost], .unchanged⟩

/-! ## src/routes/admin.js -/

/-- The routes of the admin router with what each reads from the request. -/
inductive Route where
  | dashboard (page : Option String)
  | addForm
  | addPost (title subtitle content : String) (file : Option String)
  | deletePost (id : String)
  | editForm (id : String)
  | editPost (id title subtitle content : String)
  | loginForm
  | loginPost (email password : String)
  | logout
  deriving DecidableEq, Repr

/-- The two login routes. -/
def Route.isLogin : Route → Bool
  | .loginForm => true
  | .loginPost _ _ => true
  | _ => false

/-- The routes registered with the `authenticate` middleware. -/
def Route.gated : Route → Bool
  | .loginForm => false
  | .loginPost _ _ => false
  | .logout => false
  | _ => true

/-- The handler of `GET /admin/` behind the gate. -/
def dashboardGet (db : Db) (user : String) (q : Option String) : Option Outcome :=
  let page := pageOf q
  let limit := 10
  let skip := skipOf page limit
  let totalPosts := db.posts.length
  let totalPages := ceilDiv totalPosts limit
  match findPaged (db.posts.filter (fun p => p.author = user)) skip limit with
  | none => none
  | some posts =>
    some ⟨.renderList "admin/dashboard" "Admin - Devblog" posts totalPages (currentPageOf page), db,
      [.countPosts, .findPosts], .unchanged⟩

/-- The handler of `POST /admin/add` behind the gate and the upload middleware. Without
an uploaded file the destructuring of `req.file` throws and the error goes to `next`. -/
def addPost (env : Env) (db : Db) (user title subtitle content : String) (file : Option String) :
    Outcome :=
  match file with
  | none => ⟨.failed, db, [], .unchanged⟩
  | some filename =>
    let newPost : Post :=
      { id := env.freshId, title := title, subtitle := subtitle, content := content, author := user,
        slug := slugify title, image := "/images/" ++ filename, createdAt := env.now }
    ⟨.redirect "/admin/", { db with posts := db.posts ++ [newPost] }, [.storeUpload, .savePost],
      .unchanged⟩

/-- The handler of `GET /admin/delete/:id` behind the gate. -/
def deletePost (db : Db) (id : String) : Outcome :=
  match db.posts.find? (fun p => p.id = id) with
  | none => ⟨.notFound "Post not found", db, [.deletePost], .unchanged⟩
  | some _ =>
    ⟨.redirect "/admin/", { db with posts := db.posts.eraseP (fun p => p.id = id) }, [.deletePost],
      .unchanged⟩

/-- The handler of `GET /admin/edit/:id` behind the gate. -/
def editForm (db : Db) (id : String) : Outcome :=
  ⟨.renderEdit "admin/edit" "Edit Post" (db.posts.find? (fun p => p.id = id)), db, [.findPost],
    .unchanged⟩

/-- The handler of `POST /admin/edit/:id` behind the gate. -/
def editPost (db : Db) (id title subtitle content : String) : Outcome :=
  let updatedData : Post → Post :=
    fun p => { p with title := title, subtitle := subtitle, content := content }
  ⟨.redirect "/admin/", { db with posts := (updateFirst id updatedData db.posts) }, [.updatePost],
    .unchanged⟩

/-- The handler of `POST /admin/login`. -/
def loginPost (env : Env) (db : Db) (email password : String) : Outcome :=
  match db.users.find? (fun u => u.email = email) with
  | none =>
    ⟨.renderLogin "admin/login" "Admin Login" (some "Invalid email or password"), db, [.findUser],
      .unchanged⟩
  | some user =>
    let hashedPassword := env.sha256 password
    if user.password = hashedPassword then
      ⟨.redirect "/admin/", db, [.findUser], .set "user" user.name⟩
    else
      ⟨.renderLogin "admin/login" "Admin Login" (some "Invalid email or password"), db, [.findUser],
        .unchanged⟩

/-- The handler of `GET /admin/logout`. -/
def logout (db : Db) : Outcome :=
  ⟨.redirect "/admin/login", db, [], .cleared "user"⟩

/-- The admin router: each route with the middleware it is registered with. -/
def adminRoute (env : Env) (req : Request) (r : Route) (db : Db) : Option Outcome :=
  match r with
  | .dashboard q => authenticate req db (fun user => dashboardGet db user q)
  | .addForm =>
    authenticate req db (fun _ => some ⟨.renderAdd "admin/add" "Add New Post", db, [], .unchanged⟩)
  | .addPost title subtitle content file =>
    authenticate req db (fun user => some (addPost env db user title subtitle content file))
  | .deletePost id => authenticate req db (fun _ => some (deletePost db id))
  | .editForm id => authenticate req db (fun _ => some (editForm db id))
  | .editPost id title subtitle content =>
    authenticate req db (fun _ => some (editPost db id title subtitle content))
  | .loginForm => some ⟨.renderLogin "admin/login" "Admin Login" none, db, [], .unchanged⟩
  | .loginPost email password => some (loginPost env db email password)
  | .logout => some (logout db)

/-! ## Concrete inputs -/

/-- A post created at time `i`. -/
def mkPost (i : Nat) (author : String) : Post :=
  { id := toString i, title := "t", subtitle := "s", content := "c", author := author,
    slug := "t", image := "/images/x.png", createdAt := i }

/-- Twenty-five posts, created at times 0 to 24. -/
def db25 : Db := ⟨(List.range 25).map (fun i => mkPost i "alice"), []⟩

/-- One post, written by bob. -/
def dbBob : Db := ⟨[mkPost 0 "bob"], []⟩

/-- A store with one user and two posts. -/
def dbTwo : Db :=
  ⟨[mkPost 0 "alice", mkPost 1 "bob"], [⟨"alice", "alice@example.org", "digest-of-secret"⟩]⟩

/-- An environment with a stand-in digest. -/
def env0 : Env := ⟨fun s => "digest-of-" ++ s, "new-id", 100⟩

/-! ## The slug pipeline -/

/-- Lower-casing never yields an upper-case ASCII letter. -/
theorem lowerChar_not_upper (c d : Char) (h : d ∈ lowerChar c) : isUpper d = false := by
  unfold lowerChar at h
  split at h
  · rename_i hu
    simp only [List.mem_singleton] at h
    subst h
    have hc : c = Char.ofNat c.toNat := (Char.ofNat_toNat c).symm
    simp only [isUpper, Bool.and_eq_true, decide_eq_true_eq] at hu
    obtain ⟨h1, h2⟩ := hu
    generalize c.toNat = n at hc h1 h2
    subst hc
    interval_cases n <;> decide
  · split at h
    · simp only [List.mem_cons, List.mem_singleton, List.not_mem_nil, or_false] at h
      rcases h with h | h <;> subst h <;> decide
    · split at h
      · simp only [List.mem_singleton] at h
        subst h; decide
      · rename_i hu _ _
        simp only [List.mem_singleton] at h
        subst h
        simpa using hu

theorem isHyphen_iff (c : Char) : isHyphen c = true ↔ c = '-' := by
  constructor
  · intro h
    have hc : c = Char.ofNat c.toNat := (Char.ofNat_toNat c).symm
    simp only [isHyphen, beq_iff_eq] at h
    rw [h] at hc
    exact hc
  · rintro rfl; decide

theorem isSpace_not_word (c : Char) (h : isSpace c = true) : isLowerWord c = false ∧ isHyphen c = false := by
  simp only [isSpace, Bool.or_eq_true, Bool.and_eq_true, decide_eq_true_eq, beq_iff_eq] at h
  simp only [isLowerWord, isHyphen, Bool.or_eq_false_iff, Bool.and_eq_false_iff, decide_eq_false_iff_not,
    beq_eq_false_iff_ne]
  omega

theorem isLowerWord_not_hyphen (c : Char) (h : isLowerWord c = true) :
    isHyphen c = false ∧ isSpace c = false ∧ isUpper c = false := by
  simp only [isLowerWord, Bool.or_eq_true, Bool.and_eq_true, decide_eq_true_eq, beq_iff_eq] at h
  simp only [isSpace, isUpper, isHyphen, Bool.or_eq_false_iff, Bool.and_eq_false_iff, decide_eq_false_iff_not,
    beq_eq_false_iff_ne]
  omega

/-- A character of the result of a run replacement is the replacement or a character of
the input outside the class. -/
theorem mem_replaceRuns (p : Char → Bool) (r : Char) (d : Char) :
    ∀ (cs : List Char) (b : Bool), d ∈ replaceRuns p r b cs → d = r ∨ (d ∈ cs ∧ p d = false) := by
  intro cs
  induction cs with
  | nil => intro b h; simp [replaceRuns] at h
  | cons c cs ih =>
    intro b h
    unfold replaceRuns at h
    by_cases hp : p c = true
    · simp only [hp, if_true] at h
      cases b with
      | true =>
        simp only [if_true] at h
        rcases ih true h with h1 | ⟨h1, h2⟩
        · exact Or.inl h1
        · exact Or.inr ⟨List.mem_cons_of_mem _ h1, h2⟩
      | false =>
        simp only [Bool.false_eq_true, if_false, List.mem_cons] at h
        rcases h with h | h
        · exact Or.inl h
        · rcases ih true h with h1 | ⟨h1, h2⟩
          · exact Or.inl h1
          · exact Or.inr ⟨List.mem_cons_of_mem _ h1, h2⟩
    · simp only [hp, Bool.false_eq_true, if_false, List.mem_cons] at h
      rcases h with h | h
      · subst h
        exact Or.inr ⟨List.mem_cons_self _ _, by simpa using hp⟩
      · rcases ih false h with h1 | ⟨h1, h2⟩
        · exact Or.inl h1
        · exact Or.inr ⟨List.mem_cons_of_mem _ h1, h2⟩

/-- A run replacement changes nothing when no character is in the class. -/
theorem replaceRuns_id (p : Char → Bool) (r : Char) :
    ∀ (cs : List Char) (b : Bool), (∀ c ∈ cs, p c = false) → replaceRuns p r b cs = cs := by
  intro cs
  induction cs with
  | nil => intro b _; rfl
  | cons c cs ih =>
    intro b h
    have hc : p c = false := h c (List.mem_cons_self _ _)
    unfold replaceRuns
    simp only [hc, Bool.false_eq_true, if_false]
    rw [ih false (fun d hd => h d (List.mem_cons_of_mem _ hd))]

theorem noDoubleHyphen_cons (c : Char) (cs : List Char) (hc : isHyphen c = false)
    (h : noDoubleHyphen cs = true) : noDoubleHyphen (c :: cs) = true := by
  cases cs with
  | nil => rfl
  | cons d ds => simp [noDoubleHyphen, hc, h]

theorem noDoubleHyphen_tail (c : Char) (cs : List Char) (h : noDoubleHyphen (c :: cs) = true) :
    noDoubleHyphen cs = true := by
  cases cs with
  | nil => rfl
  | cons d ds =>
    simp only [noDoubleHyphen, Bool.and_eq_true] at h
    exact h.2

/-- After the hyphen runs are replaced no hyphen follows a hyphen. -/
theorem replaceRuns_hyphen_noDouble :
    ∀ (cs : List Char), noDoubleHyphen (replaceRuns isHyphen '-' false cs) = true
      ∧ noDoubleHyphen ('-' :: replaceRuns isHyphen '-' true cs) = true := by
  intro cs
  induction cs with
  | nil => exact ⟨rfl, rfl⟩
  | cons c cs ih =>
    by_cases hp : isHyphen c = true
    · have e1 : replaceRuns isHyphen '-' false (c :: cs) = '-' :: replaceRuns isHyphen '-' true cs := by
        simp [replaceRuns, hp]
      have e2 : replaceRuns isHyphen '-' true (c :: cs) = replaceRuns isHyphen '-' true cs := by
        simp [replaceRuns, hp]
      rw [e1, e2]
      exact ⟨ih.2, ih.2⟩
    · have hp' : isHyphen c = false := by simpa using hp
      have e1 : ∀ b, replaceRuns isHyphen '-' b (c :: cs) = c :: replaceRuns isHyphen '-' false cs := by
        intro b; simp [replaceRuns, hp']
      rw [e1, e1]
      have h1 := noDoubleHyphen_cons c _ hp' ih.1
      refine ⟨h1, ?_⟩
      simp [noDoubleHyphen, hp', h1]

/-- The hyphen replacement changes nothing when no hyphen follows a hyphen. -/
theorem replaceRuns_hyphen_id :
    ∀ (cs : List Char) (b : Bool), noDoubleHyphen cs = true → (b = true → headNotHyphen cs = true) →
      replaceRuns isHyphen '-' b cs = cs := by
  intro cs
  induction cs with
  | nil => intro b _ _; rfl
  | cons c cs ih =>
    intro b hnd hb
    by_cases hp : isHyphen c = true
    · have hbf : b = false := by
        cases b with
        | false => rfl
        | true => have := hb rfl; simp [headNotHyphen, hp] at this
      subst hbf
      have hc : c = '-' := (isHyphen_iff c).1 hp
      have htail : headNotHyphen cs = true := by
        cases cs with
        | nil => rfl
        | cons d ds =>
          simp only [noDoubleHyphen, Bool.and_eq_true, Bool.not_eq_true', Bool.and_eq_false_iff] at hnd
          rcases hnd.1 with h | h
          · rw [hp] at h; cases h
          · simp [headNotHyphen, h]
      unfold replaceRuns
      simp only [hp, if_true, Bool.false_eq_true, if_false]
      rw [ih true (noDoubleHyphen_tail c cs hnd) (fun _ => htail), hc]
    · have hp' : isHyphen c = false := by simpa using hp
      unfold replaceRuns
      simp only [hp', Bool.false_eq_true, if_false]
      rw [ih false (noDoubleHyphen_tail c cs hnd) (fun h => by cases h)]

theorem dropWhile_id (p : Char → Bool) (cs : List Char) (h : ∀ c ∈ cs, p c = false) :
    cs.dropWhile p = cs := by
  cases cs with
  | nil => rfl
  | cons c cs => simp [List.dropWhile, h c (List.mem_cons_self _ _)]

/-- Trimming changes nothing when the string holds no white space. -/
theorem trim_id (cs : List Char) (h : ∀ c ∈ cs, isSpace c = false) : trim cs = cs := by
  unfold trim
  rw [dropWhile_id isSpace cs h, dropWhile_id isSpace cs.reverse (fun c hc => h c (List.mem_reverse.1 hc)),
    List.reverse_reverse]

theorem slugOK_facts (c : Char) (h : slugOK c = true) :
    isSpace c = false ∧ isUpper c = false ∧ kept c = true ∧ lowerChar c = [c] := by
  have hn : c.toNat ≤ 122 := by
    simp only [slugOK, isLowerWord, isHyphen, Bool.or_eq_true, Bool.and_eq_true, decide_eq_true_eq,
      beq_iff_eq] at h
    omega
  have hs : isSpace c = false ∧ isUpper c = false := by
    simp only [slugOK, isLowerWord, isHyphen, Bool.or_eq_true, Bool.and_eq_true, decide_eq_true_eq,
      beq_iff_eq] at h
    simp only [isSpace, isUpper, Bool.or_eq_false_iff, Bool.and_eq_false_iff, decide_eq_false_iff_not,
      beq_eq_false_iff_ne]
    omega
  refine ⟨hs.1, hs.2, ?_, ?_⟩
  · simp only [slugOK, Bool.or_eq_true] at h
    simp only [kept, isWord, Bool.or_eq_true]
    rcases h with h | h
    · exact Or.inl (Or.inl (Or.inr h))
    · exact Or.inr h
  · have h1 : ¬ c.toNat = 0x130 := by omega
    have h2 : ¬ c.toNat = 0x212A := by omega
    simp [lowerChar, hs.2, h1, h2]

theorem toLowerCase_id (cs : List Char) (h : ∀ c ∈ cs, lowerChar c = [c]) : toLowerCase cs = cs := by
  induction cs with
  | nil => rfl
  | cons c cs ih =>
    have hc := h c (List.mem_cons_self _ _)
    have := ih (fun d hd => h d (List.mem_cons_of_mem _ hd))
    simp only [toLowerCase] at this ⊢
    simp [List.flatMap_cons, hc, this]

theorem mem_toLowerCase_not_upper (cs : List Char) (d : Char) (h : d ∈ toLowerCase cs) :
    isUpper d = false := by
  simp only [toLowerCase, List.mem_flatMap] at h
  obtain ⟨c, _, hd⟩ := h
  exact lowerChar_not_upper c d hd

/-- A slug is made of `a`-`z`, `0`-`9`, `_` and `-`, and no hyphen follows a hyphen. -/
theorem slugChars_spec (title : List Char) :
    (∀ c ∈ slugChars title, slugOK c = true) ∧ noDoubleHyphen (slugChars title) = true := by
  have hpre : ∀ c ∈ (toLowerCase title).filter kept,
      isLowerWord c = true ∨ isSpace c = true ∨ isHyphen c = true := by
    intro c hc
    rw [List.mem_filter] at hc
    have hu := mem_toLowerCase_not_upper title c hc.1
    have hk := hc.2
    simp only [kept, isWord, hu, Bool.false_or, Bool.or_eq_true] at hk
    rcases hk with (h | h) | h
    · exact Or.inl h
    · exact Or.inr (Or.inl h)
    · exact Or.inr (Or.inr h)
  have h3 : ∀ c ∈ replaceRuns isSpace '-' false ((toLowerCase title).filter kept), slugOK c = true := by
    intro c hc
    rcases mem_replaceRuns isSpace '-' c _ false hc with h | ⟨h1, h2⟩
    · subst h; decide
    · rcases hpre c h1 with h | h | h
      · simp [slugOK, h]
      · rw [h2] at h; cases h
      · simp [slugOK, h]
  have h4 : ∀ c ∈ replaceRuns isHyphen '-' false
      (replaceRuns isSpace '-' false ((toLowerCase title).filter kept)), slugOK c = true := by
    intro c hc
    rcases mem_replaceRuns isHyphen '-' c _ false hc with h | ⟨h1, _⟩
    · subst h; decide
    · exact h3 c h1
  have ht : slugChars title = replaceRuns isHyphen '-' false
      (replaceRuns isSpace '-' false ((toLowerCase title).filter kept)) := by
    show trim _ = _
    exact trim_id _ (fun c hc => (slugOK_facts c (h4 c hc)).1)
  rw [ht]
  exact ⟨h4, (replaceRuns_hyphen_noDouble _).1⟩

/-- Every string of slug characters without a double hyphen is its own slug. -/
theorem slugChars_fixed (xs : List Char) (hok : ∀ c ∈ xs, slugOK c = true)
    (hnd : noDoubleHyphen xs = true) : slugChars xs = xs := by
  have e1 : toLowerCase xs = xs := toLowerCase_id xs (fun c hc => (slugOK_facts c (hok c hc)).2.2.2)
  have e2 : xs.filter kept = xs := List.filter_eq_self.2 (fun c hc => (slugOK_facts c (hok c hc)).2.2.1)
  have e3 : replaceRuns isSpace '-' false xs = xs :=
    replaceRuns_id isSpace '-' xs false (fun c hc => (slugOK_facts c (hok c hc)).1)
  have e4 : replaceRuns isHyphen '-' false xs = xs :=
    replaceRuns_hyphen_id xs false hnd (fun h => by cases h)
  have e5 : trim xs = xs := trim_id xs (fun c hc => (slugOK_facts c (hok c hc)).1)
  show trim (replaceRuns isHyphen '-' false (replaceRuns isSpace '-' false
    ((toLowerCase xs).filter (fun c => isWord c || isSpace c || isHyphen c)))) = xs
  have e2' : xs.filter (fun c => isWord c || isSpace c || isHyphen c) = xs := e2
  rw [e1, e2', e3, e4, e5]

theorem noDoubleHyphen_get (xs : List Char) (h : noDoubleHyphen xs = true) :
    ∀ i : Nat, ¬ (xs[i]? = some '-' ∧ xs[i + 1]? = some '-') := by
  induction xs with
  | nil => intro i hi; simp at hi
  | cons c cs ih =>
    intro i hi
    cases i with
    | zero =>
      cases cs with
      | nil => simp at hi
      | cons d ds =>
        simp only [List.getElem?_cons_zero, List.getElem?_cons_succ, Option.some.injEq] at hi
        obtain ⟨h1, h2⟩ := hi
        subst h1; subst h2
        simp only [noDoubleHyphen, Bool.and_eq_true, Bool.not_eq_true'] at h
        exact absurd h.1 (by decide)
    | succ j =>
      simp only [List.getElem?_cons_succ] at hi
      exact ih (noDoubleHyphen_tail c cs h) j hi

/-- C1: the slug pipeline is idempotent, `slugify (slugify T) = slugify T` for every
title `T`. -/
theorem slugify_idempotent (title : String) : slugify (slugify title) = slugify title := by
  have h := slugChars_spec title.data
  show String.mk (slugChars (slugChars title.data)) = String.mk (slugChars title.data)
  rw [slugChars_fixed _ h.1 h.2]

/-- C2: the code at the claim's own inputs. The slug of a title that starts or ends
with white space or a hyphen starts or ends with a hyphen: `trim()` runs after the
white space has been turned into hyphens and removes nothing. -/
theorem slugify_keeps_edge_hyphens :
    slugify " Hello" = "-hello" ∧ slugify "Hello " = "hello-" ∧ slugify "-Hello-" = "-hello-"
      ∧ slugify "! Hello" = "-hello" := by
  decide

/-- C3: every character of a slug is a lower-case ASCII letter, an ASCII digit, an
underscore or a hyphen; a slug holds no white space, no upper-case letter and no two
consecutive hyphens. -/
theorem slugify_url_safe (title : String) :
    (∀ c ∈ (slugify title).data,
        (97 ≤ c.toNat ∧ c.toNat ≤ 122) ∨ (48 ≤ c.toNat ∧ c.toNat ≤ 57) ∨ c = '_' ∨ c = '-')
      ∧ (∀ c ∈ (slugify title).data, isSpace c = false)
      ∧ (∀ c ∈ (slugify title).data, isUpper c = false)
      ∧ (∀ i : Nat, ¬ ((slugify title).data[i]? = some '-'
          ∧ (slugify title).data[i + 1]? = some '-')) := by
  have h := slugChars_spec title.data
  have hd : (slugify title).data = slugChars title.data := rfl
  rw [hd]
  refine ⟨?_, fun c hc => (slugOK_facts c (h.1 c hc)).1, fun c hc => (slugOK_facts c (h.1 c hc)).2.1,
    noDoubleHyphen_get _ h.2⟩
  intro c hc
  have hs := h.1 c hc
  simp only [slugOK, isLowerWord, Bool.or_eq_true, Bool.and_eq_true, decide_eq_true_eq, beq_iff_eq] at hs
  rcases hs with ((h1 | h1) | h1) | h1
  · exact Or.inl h1
  · exact Or.inr (Or.inl h1)
  · right; right; left
    have hc2 : c = Char.ofNat c.toNat := (Char.ofNat_toNat c).symm
    rw [h1] at hc2
    exact hc2
  · right; right; right
    exact (isHyphen_iff c).1 h1

/-- C4: the title `Hello, World!  Foo` has the slug `hello-world-foo`. -/
theorem slugify_hello_world : slugify "Hello, World!  Foo" = "hello-world-foo" := by
  decide

/-! ## Page numbers and pagination -/

theorem isDigit_facts (c : Char) (h : isDigit c = true) :
    isSpace c = false ∧ c ≠ '+' ∧ c ≠ '-' ∧ c ≠ 'x' ∧ c ≠ 'X' := by
  refine ⟨?_, ?_, ?_, ?_, ?_⟩
  · simp only [isDigit, Bool.and_eq_true, decide_eq_true_eq] at h
    simp only [isSpace, Bool.or_eq_false_iff, Bool.and_eq_false_iff, decide_eq_false_iff_not,
      beq_eq_false_iff_ne]
    omega
  all_goals (rintro rfl; revert h; decide)

theorem isDecimal_all (ds : List Char) (h : isDecimal ds = true) :
    ds ≠ [] ∧ ∀ c ∈ ds, isDigit c = true := by
  simp only [isDecimal, Bool.and_eq_true, Bool.not_eq_true', List.isEmpty_eq_false,
    List.all_eq_true] at h
  exact ⟨h.1, h.2⟩

/-- ToNumber of a decimal numeral is its value. -/
theorem stringToNumber_decimal (ds : List Char) (h : isDecimal ds = true) :
    stringToNumber ds = JSNum.ofInt (decVal ds : Int) := by
  obtain ⟨hne, hall⟩ := isDecimal_all ds h
  have ht : trim ds = ds := trim_id ds (fun c hc => (isDigit_facts c (hall c hc)).1)
  cases ds with
  | nil => exact absurd rfl hne
  | cons c cs =>
    have hc := isDigit_facts c (hall c (List.mem_cons_self _ _))
    simp only [stringToNumber, ht, List.isEmpty_cons, Bool.false_eq_true, if_false, signedDigits,
      hc.2.1, hc.2.2.1, h, if_true]

/-- The call `parseInt` on a decimal numeral gives its value. -/
theorem parseIntStr_decimal (ds : List Char) (h : isDecimal ds = true) :
    parseIntStr ds = JSNum.ofInt (decVal ds : Int) := by
  obtain ⟨hne, hall⟩ := isDecimal_all ds h
  have hd : ds.dropWhile isSpace = ds :=
    dropWhile_id isSpace ds (fun c hc => (isDigit_facts c (hall c hc)).1)
  have htw : ds.takeWhile isDigit = ds := List.takeWhile_eq_self_iff.2 hall
  have hx : startsWithHex ds = false := by
    cases ds with
    | nil => rfl
    | cons a as =>
      cases as with
      | nil => rfl
      | cons b bs =>
        have hb := isDigit_facts b (hall b (List.mem_cons_of_mem _ (List.mem_cons_self _ _)))
        simp [startsWithHex, hb.2.2.2.1, hb.2.2.2.2]
  cases ds with
  | nil => exact absurd rfl hne
  | cons c cs =>
    have hc := isDigit_facts c (hall c (List.mem_cons_self _ _))
    simp only [parseIntStr, hd, hc.2.1, hc.2.2.1, if_false, parseDigits, hx, Bool.false_eq_true, htw,
      List.isEmpty_cons]

/-- The page count is the least `k` with `n ≤ 10 * k`. -/
theorem ceilDiv_ten_spec (n : Nat) :
    n ≤ 10 * ceilDiv n 10 ∧ ∀ k : Nat, n ≤ 10 * k → ceilDiv n 10 ≤ k := by
  unfold ceilDiv
  constructor
  · omega
  · intro k hk
    omega

theorem page_nonempty_iff (n p : Nat) (hp : 1 ≤ p) :
    (p - 1) * 10 < n ↔ p ≤ ceilDiv n 10 := by
  unfold ceilDiv
  omega

theorem length_newestFirst (ps : List Post) : (newestFirst ps).length = ps.length := by
  unfold newestFirst
  exact List.length_insertionSort _ ps

theorem ofInt_safe (n : Nat) (h : n ≤ maxSafeInteger) : JSNum.ofInt (n : Int) = .num (n : Int) := by
  simp [JSNum.ofInt, h]

theorem skipOf_decimal (s : String) (h : isDecimal s.data = true) (hp : 1 ≤ decVal s.data)
    (hb : (decVal s.data - 1) * 10 ≤ maxSafeInteger) :
    pageOf (some s) = .str s
      ∧ skipOf (pageOf (some s)) 10 = .num (((decVal s.data - 1) * 10 : Nat) : Int)
      ∧ currentPageOf (pageOf (some s)) = .num (decVal s.data : Int) := by
  have hne : s ≠ "" := by
    intro he
    subst he
    exact absurd h (by decide)
  have hpage : pageOf (some s) = .str s := by simp [pageOf, hne]
  refine ⟨hpage, ?_, ?_⟩
  · have hp1 : decVal s.data ≤ maxSafeInteger := by
      unfold maxSafeInteger at hb ⊢
      omega
    have hp2 : decVal s.data - 1 ≤ maxSafeInteger := by omega
    have e1 : ((decVal s.data : Nat) : Int) - 1 = ((decVal s.data - 1 : Nat) : Int) := by
      omega
    have e2 : ((decVal s.data - 1 : Nat) : Int) * ((10 : Nat) : Int)
        = (((decVal s.data - 1) * 10 : Nat) : Int) := by
      push_cast
      ring
    rw [hpage]
    simp only [skipOf, PageVal.toNumber, stringToNumber_decimal s.data h, ofInt_safe _ hp1,
      JSNum.sub, e1, ofInt_safe _ hp2, JSNum.mul, e2, ofInt_safe _ hb]
  · have hp1 : decVal s.data ≤ maxSafeInteger := by
      unfold maxSafeInteger at hb ⊢
      omega
    rw [hpage]
    simp only [currentPageOf, parseIntStr_decimal s.data h, ofInt_safe _ hp1]

theorem findPaged_nat (ps : List Post) (k limit : Nat) :
    findPaged ps (.num (k : Int)) limit = some (((newestFirst ps).drop k).take limit) := by
  simp [findPaged]

theorem decVal_append (ds : List Char) (c : Char) :
    decVal (ds ++ [c]) = decVal ds * 10 + (c.toNat - 48) := by
  simp [decVal, List.foldl_append]

theorem digit_char (d : Nat) (hd : d < 10) :
    isDigit (Char.ofNat (48 + d)) = true ∧ (Char.ofNat (48 + d)).toNat - 48 = d := by
  interval_cases d <;> decide

/-- Every natural number is the value of a decimal numeral. -/
theorem decimal_numeral_exists (p : Nat) : ∃ s : String, isDecimal s.data = true ∧ decVal s.data = p := by
  induction p using Nat.strong_induction_on with
  | _ p ih =>
    by_cases hp : p < 10
    · refine ⟨String.mk [Char.ofNat (48 + p)], ?_, ?_⟩
      · simp [isDecimal, (digit_char p hp).1]
      · simp [decVal, (digit_char p hp).2]
    · obtain ⟨s, hs, hv⟩ := ih (p / 10) (by omega)
      have hd := digit_char (p % 10) (Nat.mod_lt _ (by decide))
      obtain ⟨hne, hall⟩ := isDecimal_all s.data hs
      refine ⟨String.mk (s.data ++ [Char.ofNat (48 + p % 10)]), ?_, ?_⟩
      · have hall2 : ∀ c ∈ s.data ++ [Char.ofNat (48 + p % 10)], isDigit c = true := by
          intro c hc
          rcases List.mem_append.1 hc with h | h
          · exact hall c h
          · rw [List.mem_singleton.1 h]
            exact hd.1
        have hne2 : s.data ++ [Char.ofNat (48 + p % 10)] ≠ [] := by simp
        simp only [isDecimal, Bool.and_eq_true, Bool.not_eq_true', List.isEmpty_eq_false,
          List.all_eq_true]
        exact ⟨hne2, hall2⟩
      · show decVal (s.data ++ [Char.ofNat (48 + p % 10)]) = p
        rw [decVal_append, hv, hd.2]
        omega

/-- The newest-first list is sorted by creation time, descending. -/
theorem newestFirst_sorted (ps : List Post) :
    (newestFirst ps).Sorted (fun a b => b.createdAt ≤ a.createdAt) := by
  haveI : IsTotal Post (fun a b => b.createdAt ≤ a.createdAt) := ⟨fun a b => Nat.le_total _ _⟩
  haveI : IsTrans Post (fun a b => b.createdAt ≤ a.createdAt) :=
    ⟨fun _ _ _ hab hbc => Nat.le_trans hbc hab⟩
  exact List.sorted_insertionSort _ ps

/-- The newest-first list holds the stored posts, each as often as the store. -/
theorem newestFirst_perm (ps : List Post) : (newestFirst ps).Perm ps :=
  List.perm_insertionSort _ ps

/-- C5: for a page parameter that is the decimal numeral of `p ≥ 1`, with `(p-1)*10` in
the range in which the handler's double arithmetic is exact, `GET /` renders the
posts at positions `(p-1)*10+1 .. min (p*10) n` of the newest-first list (drop
`(p-1)*10`, take 10) with `totalPages = ceil (n/10)` and `currentPage = p`; the page is
non-empty exactly when `p ≤ totalPages`, and a page beyond the last is an empty list,
not an error. -/
theorem home_pagination (db : Db) (s : String) (hs : isDecimal s.data = true)
    (hp : 1 ≤ decVal s.data) (hb : (decVal s.data - 1) * 10 ≤ maxSafeInteger) :
    indexGet db (some s)
        = some ⟨.renderList "index" "Home - Devblog"
            (((newestFirst db.posts).drop ((decVal s.data - 1) * 10)).take 10)
            (ceilDiv db.posts.length 10) (.num (decVal s.data : Int)),
            db, [.countPosts, .findPosts], .unchanged⟩
      ∧ (newestFirst db.posts).Perm db.posts
      ∧ (newestFirst db.posts).Sorted (fun a b => b.createdAt ≤ a.createdAt)
      ∧ (db.posts.length ≤ 10 * ceilDiv db.posts.length 10
          ∧ ∀ k : Nat, db.posts.length ≤ 10 * k → ceilDiv db.posts.length 10 ≤ k)
      ∧ (((newestFirst db.posts).drop ((decVal s.data - 1) * 10)).take 10).length
          = min 10 (db.posts.length - (decVal s.data - 1) * 10)
      ∧ ((((newestFirst db.posts).drop ((decVal s.data - 1) * 10)).take 10) ≠ []
          ↔ decVal s.data ≤ ceilDiv db.posts.length 10) := by
  obtain ⟨_, hskip, hcur⟩ := skipOf_decimal s hs hp hb
  have hlen : (((newestFirst db.posts).drop ((decVal s.data - 1) * 10)).take 10).length
      = min 10 (db.posts.length - (decVal s.data - 1) * 10) := by
    rw [List.length_take, List.length_drop, length_newestFirst]
  refine ⟨?_, newestFirst_perm _, newestFirst_sorted _, ceilDiv_ten_spec _, hlen, ?_⟩
  · simp only [indexGet, hskip, hcur, findPaged_nat]
  · rw [← List.length_pos, hlen, ← page_nonempty_iff db.posts.length (decVal s.data) hp]
    omega

/-- C5, at 25 posts: three pages; page 3 holds the records 21 to 25 of the newest-first
list (those created at times 4 down to 0) and page 4 is an empty list. -/
theorem home_pagination_witness :
    isDecimal "3".data = true ∧ 1 ≤ decVal "3".data
      ∧ (decVal "3".data - 1) * 10 ≤ maxSafeInteger ∧ db25.posts.length = 25
      ∧ indexGet db25 (some "3")
          = some ⟨.renderList "index" "Home - Devblog"
              [mkPost 4 "alice", mkPost 3 "alice", mkPost 2 "alice", mkPost 1 "alice",
                mkPost 0 "alice"] 3 (.num 3), db25, [.countPosts, .findPosts], .unchanged⟩
      ∧ indexGet db25 (some "4")
          = some ⟨.renderList "index" "Home - Devblog" [] 3 (.num 4), db25,
              [.countPosts, .findPosts], .unchanged⟩ :=
  ⟨by decide, by decide, by decide, by decide,
    (home_pagination db25 "3" (by decide) (by decide) (by decide)).1.trans (by decide),
    (home_pagination db25 "4" (by decide) (by decide) (by decide)).1.trans (by decide)⟩

theorem isDecimal_of_no_digit (ds : List Char) (h : ∀ c ∈ ds, isDigit c = false) :
    isDecimal ds = false := by
  cases ds with
  | nil => rfl
  | cons c cs => simp [isDecimal, h c (List.mem_cons_self _ _)]

theorem stringToNumber_no_digit (ds : List Char) (hne : ds ≠ [])
    (h : ∀ c ∈ ds, isDigit c = false ∧ isSpace c = false ∧ c ≠ 'I') :
    stringToNumber ds = .nan := by
  have ht : trim ds = ds := trim_id ds (fun c hc => (h c hc).2.1)
  have hany : ds.any (fun c => isDigit c || c == 'I') = false := by
    rw [List.any_eq_false]
    intro c hc
    simp [(h c hc).1, (h c hc).2.2]
  have hsd : signedDigits ds = none := by
    cases ds with
    | nil => rfl
    | cons c cs =>
      have h1 : isDecimal cs = false :=
        isDecimal_of_no_digit cs (fun d hd => (h d (List.mem_cons_of_mem _ hd)).1)
      have h2 : isDecimal (c :: cs) = false := isDecimal_of_no_digit _ (fun d hd => (h d hd).1)
      simp only [signedDigits, h1, h2, Bool.false_eq_true, if_false, ite_self]
  cases ds with
  | nil => exact absurd rfl hne
  | cons c cs =>
    simp only [stringToNumber, ht, List.isEmpty_cons, Bool.false_eq_true, if_false, hsd, hany]

theorem parseDigits_no_digit (neg : Bool) (ds : List Char) (h : ∀ c ∈ ds, isDigit c = false) :
    parseDigits neg ds = .nan := by
  cases ds with
  | nil => rfl
  | cons c cs =>
    have hc := h c (List.mem_cons_self _ _)
    have h0 : c ≠ '0' := by
      rintro rfl
      exact absurd hc (by decide)
    have hx : startsWithHex (c :: cs) = false := by
      cases cs with
      | nil => rfl
      | cons d ds => simp [startsWithHex, h0]
    simp [parseDigits, hx, List.takeWhile, hc]

theorem parseIntStr_no_digit (ds : List Char)
    (h : ∀ c ∈ ds, isDigit c = false ∧ isSpace c = false ∧ c ≠ 'I') :
    parseIntStr ds = .nan := by
  have hd : ds.dropWhile isSpace = ds := dropWhile_id isSpace ds (fun c hc => (h c hc).2.1)
  cases ds with
  | nil => rfl
  | cons c cs =>
    have h1 : ∀ neg, parseDigits neg cs = .nan := fun neg =>
      parseDigits_no_digit neg cs (fun d hd => (h d (List.mem_cons_of_mem _ hd)).1)
    have h2 : parseDigits false (c :: cs) = .nan :=
      parseDigits_no_digit false _ (fun d hd => (h d hd).1)
    simp only [parseIntStr, hd, h1, h2, ite_self]

theorem mem_findPaged (ps : List Post) (skip : JSNum) (limit : Nat) (page : List Post)
    (h : findPaged ps skip limit = some page) : ∀ p ∈ page, p ∈ ps := by
  intro p hp
  cases skip with
  | nan => simp [findPaged] at h
  | untracked => simp [findPaged] at h
  | num i =>
    simp only [findPaged] at h
    split at h
    · simp only [Option.some.injEq] at h
      subst h
      exact (newestFirst_perm ps).mem_iff.1 (List.mem_of_mem_drop (List.mem_of_mem_take hp))
    · cases h

/-- C6 as stated fails at `page=abc`: the string is truthy, so it is the page; it is
not a number, so `skip` is `NaN` and not 0, and `currentPage` is `NaN` and not 1. -/
theorem page_abc_is_not_defaulted :
    stringToNumber "abc".data = .nan ∧ pageOf (some "abc") = .str "abc"
      ∧ skipOf (pageOf (some "abc")) 10 = .nan ∧ skipOf (pageOf (some "abc")) 10 ≠ .num 0
      ∧ currentPageOf (pageOf (some "abc")) = .nan
      ∧ currentPageOf (pageOf (some "abc")) ≠ .num 1 := by
  decide

/-- C6, amended: when the page parameter is absent or the empty string, `GET /` and
`GET /admin/` use page 1: `skip` is 0, the first ten posts are fetched and `currentPage`
is 1. A non-empty parameter is used as it is; when it holds no digit, no white space
and no `I`, both `skip` and `currentPage` are `NaN`. -/
theorem page_defaults_when_absent_or_empty (env : Env) (db : Db) (q : Option String)
    (user : String) (hq : q = none ∨ q = some "") (hu : user ≠ "") :
    pageOf q = .lit 1 ∧ skipOf (pageOf q) 10 = .num 0 ∧ currentPageOf (pageOf q) = .num 1
      ∧ indexGet db q
          = some ⟨.renderList "index" "Home - Devblog" ((newestFirst db.posts).take 10)
              (ceilDiv db.posts.length 10) (.num 1), db, [.countPosts, .findPosts], .unchanged⟩
      ∧ adminRoute env ⟨some user⟩ (.dashboard q) db
          = some ⟨.renderList "admin/dashboard" "Admin - Devblog"
              ((newestFirst (db.posts.filter (fun p => p.author = user))).take 10)
              (ceilDiv db.posts.length 10) (.num 1), db, [.countPosts, .findPosts], .unchanged⟩
      ∧ (∀ s : String, s ≠ "" →
          (∀ c ∈ s.data, isDigit c = false ∧ isSpace c = false ∧ c ≠ 'I') →
          pageOf (some s) = .str s ∧ skipOf (pageOf (some s)) 10 = .nan
            ∧ currentPageOf (pageOf (some s)) = .nan)
      ∧ (∀ s : String, s ≠ "" → pageOf (some s) = .str s) := by
  have hpage : pageOf q = .lit 1 := by
    rcases hq with rfl | rfl <;> rfl
  have hskip : skipOf (pageOf q) 10 = .num 0 := by rw [hpage]; rfl
  have hcur : currentPageOf (pageOf q) = .num 1 := by rw [hpage]; rfl
  have hfind : ∀ ps : List Post, findPaged ps (.num 0) 10 = some ((newestFirst ps).take 10) := by
    intro ps
    simp [findPaged]
  refine ⟨hpage, hskip, hcur, ?_, ?_, ?_, ?_⟩
  rotate_right
  · intro s hs
    simp [pageOf, hs]
  · simp only [indexGet, hskip, hcur, hfind]
  · simp only [adminRoute, authenticate, hu, if_false, dashboardGet, hskip, hcur, hfind]
  · intro s hs hall
    have hp : pageOf (some s) = .str s := by simp [pageOf, hs]
    have hne : s.data ≠ [] := by
      intro he
      apply hs
      cases s
      simp_all
    refine ⟨hp, ?_, ?_⟩
    · rw [hp]
      simp only [skipOf, PageVal.toNumber, stringToNumber_no_digit s.data hne hall, JSNum.sub,
        JSNum.mul]
    · rw [hp]
      simp only [currentPageOf, parseIntStr_no_digit s.data hall]

/-- C6, amended, at an absent parameter over the two-post store. -/
theorem page_defaults_witness :
    ((none : Option String) = none ∨ (none : Option String) = some "") ∧ "alice" ≠ ""
      ∧ skipOf (pageOf none) 10 = .num 0 ∧ currentPageOf (pageOf none) = .num 1
      ∧ indexGet dbTwo none
          = some ⟨.renderList "index" "Home - Devblog" [mkPost 1 "bob", mkPost 0 "alice"] 1
              (.num 1), dbTwo, [.countPosts, .findPosts], .unchanged⟩ :=
  ⟨Or.inl rfl, by decide,
    (page_defaults_when_absent_or_empty env0 dbTwo none "alice" (Or.inl rfl) (by decide)).2.1,
    (page_defaults_when_absent_or_empty env0 dbTwo none "alice" (Or.inl rfl) (by decide)).2.2.1,
    (page_defaults_when_absent_or_empty env0 dbTwo none "alice" (Or.inl rfl)
      (by decide)).2.2.2.1.trans (by decide)⟩

/-- Every post the dashboard lists is a stored post whose author is the actor. -/
theorem dashboard_lists_only_actor (db : Db) (user : String) (q : Option String) (o : Outcome)
    (h : dashboardGet db user q = some o) :
    ∃ posts tp cp, o.response = .renderList "admin/dashboard" "Admin - Devblog" posts tp cp
      ∧ ∀ p ∈ posts, p ∈ db.posts ∧ p.author = user := by
  simp only [dashboardGet] at h
  split at h
  · cases h
  · rename_i posts hf
    simp only [Option.some.injEq] at h
    subst h
    refine ⟨posts, _, _, rfl, ?_⟩
    intro p hp
    have := mem_findPaged _ _ _ _ hf p hp
    simpa using this

/-- C10: the code at a store whose only post is bob's, for the actor alice. The
dashboard lists no post, and `totalPages` is 1, the page count of all posts, where the
count of alice's posts gives 0: `countDocuments()` is called without the author
filter that `find` has. -/
theorem dashboard_totalPages_counts_every_author :
    adminRoute env0 ⟨some "alice"⟩ (.dashboard none) dbBob
        = some ⟨.renderList "admin/dashboard" "Admin - Devblog" [] 1 (.num 1), dbBob,
            [.countPosts, .findPosts], .unchanged⟩
      ∧ ceilDiv (dbBob.posts.filter (fun p => p.author = "alice")).length 10 = 0 := by
  decide

/-! ## Login, the gate and editing -/

/-- C7: a login with an email no user has and a login with a known email and a
password whose digest differs from the stored one get the same outcome: the view
`admin/login` with the title `Admin Login` and the error `Invalid email or password`,
no cookie, the stores as they were. The `user` cookie is set, to the user's name,
exactly when a user with the email is found and the digest of the submitted password
equals the stored hash. -/
theorem login_no_leak (env : Env) (db : Db) (req : Request) (e1 p1 e2 p2 : String) (u : User)
    (h1 : db.users.find? (fun v => v.email = e1) = none)
    (h2 : db.users.find? (fun v => v.email = e2) = some u)
    (h3 : u.password ≠ env.sha256 p2) :
    adminRoute env req (.loginPost e1 p1) db = adminRoute env req (.loginPost e2 p2) db
      ∧ adminRoute env req (.loginPost e2 p2) db
          = some ⟨.renderLogin "admin/login" "Admin Login" (some "Invalid email or password"), db,
              [.findUser], .unchanged⟩
      ∧ (∀ (e p name : String),
          (∃ o, adminRoute env req (.loginPost e p) db = some o ∧ o.cookie = .set "user" name)
            ↔ ∃ v, db.users.find? (fun w => w.email = e) = some v
                ∧ v.password = env.sha256 p ∧ v.name = name)
      ∧ (∀ (e p : String) (o : Outcome), adminRoute env req (.loginPost e p) db = some o →
          o.cookie = .unchanged ∨ ∃ v ∈ db.users, v.email = e ∧ v.password = env.sha256 p
            ∧ o.cookie = .set "user" v.name) := by
  have ha : adminRoute env req (.loginPost e1 p1) db
      = some ⟨.renderLogin "admin/login" "Admin Login" (some "Invalid email or password"), db,
          [.findUser], .unchanged⟩ := by
    simp only [adminRoute, loginPost, h1]
  have hb : adminRoute env req (.loginPost e2 p2) db
      = some ⟨.renderLogin "admin/login" "Admin Login" (some "Invalid email or password"), db,
          [.findUser], .unchanged⟩ := by
    simp only [adminRoute, loginPost, h2, h3, if_false]
  refine ⟨ha.trans hb.symm, hb, ?_, ?_⟩
  · intro e p name
    constructor
    · rintro ⟨o, ho, hc⟩
      simp only [adminRoute, loginPost, Option.some.injEq] at ho
      subst ho
      cases hf : db.users.find? (fun w => decide (w.email = e)) with
      | none => simp [hf] at hc
      | some v =>
        simp only [hf] at hc
        by_cases hpw : v.password = env.sha256 p
        · simp only [hpw, if_true, CookieEffect.set.injEq, true_and] at hc
          exact ⟨v, rfl, hpw, hc⟩
        · simp [hpw] at hc
    · rintro ⟨v, hf, hpw, hn⟩
      refine ⟨_, rfl, ?_⟩
      simp only [loginPost, hf, hpw, if_true, hn]
  · intro e p o ho
    simp only [adminRoute, loginPost, Option.some.injEq] at ho
    subst ho
    cases hf : db.users.find? (fun w => decide (w.email = e)) with
    | none => left; rfl
    | some v =>
      by_cases hpw : v.password = env.sha256 p
      · right
        refine ⟨v, List.mem_of_find?_eq_some hf, ?_, hpw, ?_⟩
        · simpa using List.find?_some hf
        · simp only [hpw, if_true]
      · left
        simp only [hpw, if_false]

/-- C7, at the store with the user alice: an unknown email and alice's email with a
wrong password. -/
theorem login_no_leak_witness :
    dbTwo.users.find? (fun v => v.email = "nobody@example.org") = none
      ∧ dbTwo.users.find? (fun v => v.email = "alice@example.org")
          = some ⟨"alice", "alice@example.org", "digest-of-secret"⟩
      ∧ "digest-of-secret" ≠ env0.sha256 "guess"
      ∧ adminRoute env0 ⟨none⟩ (.loginPost "nobody@example.org" "secret") dbTwo
          = adminRoute env0 ⟨none⟩ (.loginPost "alice@example.org" "guess") dbTwo
      ∧ adminRoute env0 ⟨none⟩ (.loginPost "alice@example.org" "secret") dbTwo
          = some ⟨.redirect "/admin/", dbTwo, [.findUser], .set "user" "alice"⟩ :=
  ⟨by decide, by decide, by decide,
    (login_no_leak env0 dbTwo ⟨none⟩ "nobody@example.org" "secret" "alice@example.org" "guess"
      ⟨"alice", "alice@example.org", "digest-of-secret"⟩ (by decide) (by decide) (by decide)).1,
    by decide⟩

/-- C8 as stated fails at logout: the route is registered without `authenticate`, so
with no cookie its handler runs and clears the `user` cookie; the outcome is not the
one of the gate. -/
theorem logout_is_not_gated :
    Route.gated .logout = false
      ∧ adminRoute env0 ⟨none⟩ .logout dbTwo
          = some ⟨.redirect "/admin/login", dbTwo, [], .cleared "user"⟩
      ∧ adminRoute env0 ⟨none⟩ .logout dbTwo ≠ authenticate ⟨none⟩ dbTwo (fun _ => none) := by
  decide

/-- C8, amended: with the `user` cookie absent, every admin route other than the two
login routes answers with a redirect to `/admin/login`, leaves both stores as they
were and makes no store call. For the six gated routes the outcome is the one of
`authenticate`, whatever the handler; logout is not gated, its handler runs and clears
the cookie. -/
theorem no_cookie_redirects_to_login (env : Env) (db : Db) (r : Route)
    (h : r.isLogin = false) :
    adminRoute env ⟨none⟩ r db
        = some ⟨.redirect "/admin/login", db, [],
            if r = .logout then .cleared "user" else .unchanged⟩
      ∧ (r.gated = true →
          ∀ next : String → Option Outcome, adminRoute env ⟨none⟩ r db = authenticate ⟨none⟩ db next)
      ∧ (r.gated = false → r = .logout) := by
  cases r <;> simp_all [adminRoute, authenticate, logout, Route.isLogin, Route.gated]

/-- C8, amended, at `POST /admin/edit/0` without a cookie. -/
theorem no_cookie_redirects_witness :
    Route.isLogin (.editPost "0" "T" "S" "C") = false
      ∧ adminRoute env0 ⟨none⟩ (.editPost "0" "T" "S" "C") dbTwo
          = some ⟨.redirect "/admin/login", dbTwo, [], .unchanged⟩ :=
  ⟨rfl, (no_cookie_redirects_to_login env0 dbTwo (.editPost "0" "T" "S" "C") rfl).1.trans
    (by decide)⟩

/-- After the update the lookup by id finds the updated post. -/
theorem find?_updateFirst (id : String) (f : Post → Post) (hf : ∀ q, (f q).id = q.id) :
    ∀ (ps : List Post) (p : Post), ps.find? (fun q => q.id = id) = some p →
      (updateFirst id f ps).find? (fun q => q.id = id) = some (f p) := by
  intro ps
  induction ps with
  | nil => intro p h; simp at h
  | cons a as ih =>
    intro p h
    by_cases ha : a.id = id
    · have hfa : (f a).id = id := (hf a).trans ha
      simp only [List.find?_cons, ha, decide_True, Option.some.injEq] at h
      subst h
      simp [updateFirst, ha, hfa]
    · simp only [List.find?_cons, ha, decide_False] at h
      simp only [updateFirst, ha, if_false, List.find?_cons, decide_False]
      exact ih p h

theorem length_updateFirst (id : String) (f : Post → Post) :
    ∀ ps : List Post, (updateFirst id f ps).length = ps.length := by
  intro ps
  induction ps with
  | nil => rfl
  | cons a as ih =>
    by_cases ha : a.id = id
    · simp [updateFirst, ha]
    · simp [updateFirst, ha, ih]

/-- The update leaves every post with another id at its place. -/
theorem getElem?_updateFirst_other (id : String) (f : Post → Post) :
    ∀ (ps : List Post) (i : Nat) (q : Post), ps[i]? = some q → q.id ≠ id →
      (updateFirst id f ps)[i]? = some q := by
  intro ps
  induction ps with
  | nil => intro i q h; simp at h
  | cons a as ih =>
    intro i q h hq
    by_cases ha : a.id = id
    · cases i with
      | zero =>
        simp only [List.getElem?_cons_zero, Option.some.injEq] at h
        subst h
        exact absurd ha hq
      | succ j =>
        simp only [List.getElem?_cons_succ] at h
        simp [updateFirst, ha, h]
    · cases i with
      | zero =>
        simp only [List.getElem?_cons_zero, Option.some.injEq] at h
        subst h
        simp [updateFirst, ha]
      | succ j =>
        simp only [List.getElem?_cons_succ] at h
        simp only [updateFirst, ha, if_false, List.getElem?_cons_succ]
        exact ih j q h hq

/-- C9: for an authenticated request and an id some post `p` has, `POST /admin/edit/:id`
redirects to the dashboard and leaves a store in which the post with that id has the
submitted title, subtitle and content and the slug, image, author, id and creation
time of `p`; the store has as many posts as before, every post with another id is at
its place unchanged, and the users are untouched. -/
theorem edit_overwrites_three_fields (env : Env) (db : Db) (user id title subtitle content : String)
    (p : Post) (hu : user ≠ "") (hp : db.posts.find? (fun q => q.id = id) = some p) :
    ∃ o : Outcome,
      adminRoute env ⟨some user⟩ (.editPost id title subtitle content) db = some o
        ∧ o.response = .redirect "/admin/" ∧ o.db.users = db.users
        ∧ o.db.posts.find? (fun q => q.id = id)
            = some { p with title := title, subtitle := subtitle, content := content }
        ∧ (∃ e : Post, o.db.posts.find? (fun q => q.id = id) = some e ∧ e.title = title
            ∧ e.subtitle = subtitle ∧ e.content = content ∧ e.slug = p.slug ∧ e.image = p.image
            ∧ e.author = p.author ∧ e.id = p.id ∧ e.createdAt = p.createdAt)
        ∧ o.db.posts.length = db.posts.length
        ∧ (∀ (i : Nat) (q : Post), db.posts[i]? = some q → q.id ≠ id → o.db.posts[i]? = some q) := by
  have hfind := find?_updateFirst id
    (fun q => { q with title := title, subtitle := subtitle, content := content })
    (fun _ => rfl) db.posts p hp
  refine ⟨editPost db id title subtitle content, ?_, rfl, rfl, hfind, ?_, ?_, ?_⟩
  · simp only [adminRoute, authenticate, hu, if_false]
  · exact ⟨_, hfind, rfl, rfl, rfl, rfl, rfl, rfl, rfl, rfl⟩
  · exact length_updateFirst _ _ _
  · exact getElem?_updateFirst_other _ _ _

/-- C9, at the two-post store: alice edits post 0; its slug `t` and image stay, and
bob's post 1 is unchanged. -/
theorem edit_overwrites_witness :
    "alice" ≠ "" ∧ dbTwo.posts.find? (fun q => q.id = "0") = some (mkPost 0 "alice")
      ∧ ∃ o : Outcome,
          adminRoute env0 ⟨some "alice"⟩ (.editPost "0" "New Title" "S" "C") dbTwo = some o
            ∧ o.db.posts
                = [{ mkPost 0 "alice" with title := "New Title", subtitle := "S", content := "C" },
                    mkPost 1 "bob"] := by
  refine ⟨by decide, by decide, ?_⟩
  obtain ⟨o, ho, _⟩ := edit_overwrites_three_fields env0 dbTwo "alice" "0" "New Title" "S" "C"
    (mkPost 0 "alice") (by decide) (by decide)
  refine ⟨o, ho, ?_⟩
  have h2 : adminRoute env0 ⟨some "alice"⟩ (.editPost "0" "New Title" "S" "C") dbTwo
      = some (editPost dbTwo "0" "New Title" "S" "C") := by decide
  rw [h2] at ho
  cases ho
  decide

end Devblog
